import Mathlib

/-!
Verification development for the RateX API gateway.

Shallow embedding of the rate-limit decision engine (`src/utils/rateLimiters.ts`),
the proxy and status routes (`src/routes/proxy.ts`), the worker-pool manager
(`WorkerManager`: node-id allocation and stream trimming), and the application
creation validation (`appsRouter`).  Times are naturals in milliseconds, JS
numbers that carry fractional token counts are rationals, and the Redis store is
modelled per strategy as the exact data each strategy touches, including expiry
timestamps recorded in milliseconds.
-/

namespace RateX

/-- JS `x || d` for an optional numeric config field: `undefined` and `0` are falsy. -/
def jsOrNat (x : Option Nat) (d : Nat) : Nat :=
  match x with
  | some v => if v = 0 then d else v
  | none => d

/-- JS `x || d` for an optional fractional config field: `undefined` and `0` are falsy. -/
def jsOrRat (x : Option ℚ) (d : ℚ) : ℚ :=
  match x with
  | some v => if v = 0 then d else v
  | none => d

/-- JS `x ?? d` (nullish coalescing). -/
def nullishOr (x : Option Nat) (d : Nat) : Nat := x.getD d

/-- The `AppError` from `middleware/errorHandler`: an HTTP status code plus a message. -/
structure AppError where
  status : Nat
  message : String
deriving DecidableEq, Repr

/-- The `IRateLimitConfig.clusterConfig` record. -/
structure ClusterConfig where
  timeout : Option Nat
  maxRetries : Option Nat
deriving DecidableEq, Repr

/-- The `IRateLimitConfig` from `rateLimiters.ts`.  `window` is in seconds; the strategy
tag is a plain string because the config is read back from a JSON document. -/
structure IRateLimitConfig where
  window : Nat
  burst : Option Nat
  requests : Nat
  leakRate : Option ℚ
  refillRate : Option ℚ
  clusterConfig : Option ClusterConfig
  strategy : String
deriving DecidableEq, Repr

/-- The `RateLimiter` constructor: `this.timeout = config.clusterConfig?.timeout || 5000`. -/
def rlTimeout (cfg : IRateLimitConfig) : Nat :=
  jsOrNat (cfg.clusterConfig.bind (fun c => c.timeout)) 5000

/-- The `RateLimiter` constructor: `this.maxRetries = config.clusterConfig?.maxRetries || 3`. -/
def rlMaxRetries (cfg : IRateLimitConfig) : Nat :=
  jsOrNat (cfg.clusterConfig.bind (fun c => c.maxRetries)) 3

/-! Fixed window (`RateLimiter.fixedWindow`) -/

/-- The value stored under one `{fixed:<app>}:<bucket>` key: the counter together
with the absolute expiry instant (ms) that the last `EXPIRE` call installed. -/
structure FWEntry where
  count : Nat
  expiresAt : Nat
deriving DecidableEq, Repr

/-- The window bucket of an instant: `Math.floor(now / (window * 1000))`. -/
def fwBucket (cfg : IRateLimitConfig) (now : Nat) : Nat := now / (cfg.window * 1000)

/-- The stored counter, `parseInt(current)` with a missing key read as 0. -/
def fwCount (st : Nat → Option FWEntry) (bucket : Nat) : Nat :=
  match st bucket with
  | some e => e.count
  | none => 0

/-- Model of `RateLimiter.fixedWindow`, one decision at time `now` (ms) over the per-bucket
state.  Deny when the stored counter of the current bucket already reaches
`requests`; on admit, `INCR` the bucket counter and `EXPIRE` the key to `window`
seconds (the `EXPIRE` runs inside the `MULTI` on every admit). -/
def fixedWindow (cfg : IRateLimitConfig) (st : Nat → Option FWEntry) (now : Nat) :
    Bool × (Nat → Option FWEntry) :=
  let bucket := fwBucket cfg now
  let count := fwCount st bucket
  if cfg.requests ≤ count then (false, st)
  else (true, fun b => if b = bucket then some ⟨count + 1, now + cfg.window * 1000⟩ else st b)

/-- Variant that follows the spec's words for C1 (refinement comparison only):
the TTL is installed on the first write of the window's key and left untouched by
later admits. -/
def fixedWindowFirstWriteTTL (cfg : IRateLimitConfig) (st : Nat → Option FWEntry) (now : Nat) :
    Bool × (Nat → Option FWEntry) :=
  let bucket := fwBucket cfg now
  let count := fwCount st bucket
  let expiry := match st bucket with
    | some e => e.expiresAt
    | none => now + cfg.window * 1000
  if cfg.requests ≤ count then (false, st)
  else (true, fun b => if b = bucket then some ⟨count + 1, expiry⟩ else st b)

/-! Token bucket (`RateLimiter.tokenBucket`) -/

/-- The hash stored under `{bucket:<app>}`: fractional token count, the
`lastRefill` instant (ms), and the expiry instant the last `EXPIRE` installed. -/
structure TBState where
  tokens : ℚ
  lastRefill : Nat
  expiresAt : Nat
deriving DecidableEq, Repr

/-- JS `const burst = this.config.burst || this.config.requests`. -/
def tbBurst (cfg : IRateLimitConfig) : Nat := jsOrNat cfg.burst cfg.requests

/-- JS `const refillRate = this.config.refillRate || 1`. -/
def tbRate (cfg : IRateLimitConfig) : ℚ := jsOrRat cfg.refillRate 1

/-- The refilled-and-clamped token count a `tokenBucket` call computes: start
from the stored tokens (or `burst` with no stored hash), add
`(now - lastRefill)/1000 * refillRate` (with `lastRefill = now` when the hash is
absent), and clamp to `burst` with `Math.min`. -/
def tbCur (cfg : IRateLimitConfig) (st : Option TBState) (now : Nat) : ℚ :=
  min ((tbBurst cfg : ℚ))
    ((match st with
      | some s => s.tokens
      | none => ((tbBurst cfg : ℚ))) +
     ((now : ℚ) -
      (match st with
       | some s => (s.lastRefill : ℚ)
       | none => (now : ℚ))) / 1000 * tbRate cfg)

/-- Model of `RateLimiter.tokenBucket`, one decision at time `now` (ms).  Deny when the
refilled count is below 1 token; on admit spend one token, stamp `lastRefill =
now` and `EXPIRE` to `Math.ceil(burst / refillRate) * 2` seconds. -/
def tokenBucket (cfg : IRateLimitConfig) (st : Option TBState) (now : Nat) :
    Bool × Option TBState :=
  if tbCur cfg st now < 1 then (false, st)
  else
    (true, some ⟨tbCur cfg st now - 1, now,
                 now + (Int.ceil ((tbBurst cfg : ℚ) / tbRate cfg)).toNat * 2 * 1000⟩)

/-- The decision trace of successive `tokenBucket` calls at the given instants. -/
def tbDecisions (cfg : IRateLimitConfig) : Option TBState → List Nat → List Bool
  | _, [] => []
  | st, t :: ts =>
    let r := tokenBucket cfg st t
    r.1 :: tbDecisions cfg r.2 ts

/-- The state left behind by successive `tokenBucket` calls. -/
def tbFinal (cfg : IRateLimitConfig) : Option TBState → List Nat → Option TBState
  | st, [] => st
  | st, t :: ts => tbFinal cfg (tokenBucket cfg st t).2 ts

/-- How many of the successive `tokenBucket` calls admitted. -/
def tbAdmitCount (cfg : IRateLimitConfig) (st : Option TBState) (ts : List Nat) : Nat :=
  (tbDecisions cfg st ts).count true

/-! Sliding log (`RateLimiter.slidingLog`) -/

/-- The sorted set stored under `{log:<app>}` (member = score = admit instant, so
it is a set of naturals) together with the expiry the last `EXPIRE` installed. -/
structure SLState where
  log : Finset Nat
  expiresAt : Option Nat
deriving DecidableEq

/-- Model of `RateLimiter.slidingLog`, one decision at time `now` (ms).
`ZREMRANGEBYSCORE key 0 (now - window*1000)` removes every entry whose score is
at most the cutoff (the Redis range is inclusive); then deny when the remaining
cardinality reaches `requests`; on admit `ZADD now` and `EXPIRE` to `window`
seconds.  The removal is committed even on the deny path. -/
def slidingLog (cfg : IRateLimitConfig) (st : SLState) (now : Nat) : Bool × SLState :=
  let pruned := st.log.filter (fun s => now < s + cfg.window * 1000)
  if cfg.requests ≤ pruned.card then (false, ⟨pruned, st.expiresAt⟩)
  else (true, ⟨insert now pruned, some (now + cfg.window * 1000)⟩)

/-- Variant that follows the spec's words for C3 (refinement comparison only):
entries are removed only when their score is strictly below `now - window*1000`. -/
def slidingLogStrictCutoff (cfg : IRateLimitConfig) (st : SLState) (now : Nat) : Bool × SLState :=
  let pruned := st.log.filter (fun s => now ≤ s + cfg.window * 1000)
  if cfg.requests ≤ pruned.card then (false, ⟨pruned, st.expiresAt⟩)
  else (true, ⟨insert now pruned, some (now + cfg.window * 1000)⟩)

/-- The instants at which successive `slidingLog` calls admitted. -/
def slAdmits (cfg : IRateLimitConfig) : SLState → List Nat → List Nat
  | _, [] => []
  | st, t :: ts =>
    let r := slidingLog cfg st t
    (if r.1 then [t] else []) ++ slAdmits cfg r.2 ts

/-- The decision of a single `slidingLog` call within a run, exposed for statements. -/
def slDecisions (cfg : IRateLimitConfig) : SLState → List Nat → List Bool
  | _, [] => []
  | st, t :: ts =>
    let r := slidingLog cfg st t
    r.1 :: slDecisions cfg r.2 ts

/-! Retry machinery (`RateLimiter.executeWithRetry`, `RateLimiter.checkLimit`) -/

/-- A thrown JS `Error`: the message, plus the HTTP status when it is an `AppError`. -/
structure JsError where
  message : String
  appStatus : Option Nat
deriving DecidableEq, Repr

/-- Whether the character list `p` occurs at the head of the second list. -/
def strStarts : List Char → List Char → Bool
  | [], _ => true
  | _ :: _, [] => false
  | a :: as, b :: bs => (a == b) && strStarts as bs

/-- Whether the character list `p` occurs anywhere inside the second list. -/
def strHas (p : List Char) : List Char → Bool
  | [] => p.isEmpty
  | c :: rest => strStarts p (c :: rest) || strHas p rest

/-- JS `String.prototype.includes`. -/
def containsSub (p s : String) : Bool := strHas p.data s.data

/-- Model of `RateLimiter.isClusterError`: the message mentions `MOVED` or `ASK`. -/
def isClusterError (e : JsError) : Bool :=
  containsSub ("MOVED") e.message || containsSub ("ASK") e.message

/-- The message of the `AppError(500, ...)` thrown when the retry loop is exhausted. -/
def failAfterMsg (retries : Nat) (lastMsg : String) : String :=
  "Operation failed after " ++ toString retries ++ " retries: " ++ lastMsg

/-- JS rendering of `lastError?.message` when `lastError` is `null`. -/
def renderLast : Option String → String
  | some m => m
  | none => "undefined"

/-- Model of `RateLimiter.executeWithRetry`, indexed by the remaining loop budget
(`fuel = maxRetries - retries`).  `op r` is the outcome of the (r+1)-th execution
of the operation (the store may change between attempts).  Returns the final
outcome, the total time slept (`timeout` after every cluster failure, including
the last one before the loop guard fails), and the number of executions. -/
def executeWithRetryAux (maxRetries timeout : Nat) (op : Nat → Except JsError Bool) :
    Nat → Nat → Option String → Except JsError Bool × Nat × Nat
  | 0, _, last =>
    (Except.error ⟨failAfterMsg maxRetries (renderLast last), some 500⟩, 0, 0)
  | fuel + 1, r, _ =>
    match op r with
    | Except.ok a => (Except.ok a, 0, 1)
    | Except.error e =>
      if isClusterError e then
        let res := executeWithRetryAux maxRetries timeout op fuel (r + 1) (some e.message)
        (res.1, res.2.1 + timeout, res.2.2 + 1)
      else (Except.error e, 0, 1)

/-- Model of `RateLimiter.executeWithRetry` started with `retries = 0` and `lastError = null`. -/
def executeWithRetry (maxRetries timeout : Nat) (op : Nat → Except JsError Bool) :
    Except JsError Bool × Nat × Nat :=
  executeWithRetryAux maxRetries timeout op maxRetries 0 none

/-- The five strategy tags the `checkLimit` switch dispatches on. -/
def strategies : List String :=
  ["fixed_window", "sliding_window", "token_bucket", "leaky_bucket", "sliding_log"]

/-- Whether the rate-limit engine implements the strategy tag. -/
def strategySupported (s : String) : Bool := strategies.contains s

/-- Model of `RateLimiter.checkLimit`: run the strategy dispatch under `executeWithRetry`
with the constructor's `maxRetries`/`timeout` defaults.  `limiter i` is the
decision (or thrown store error) of the dispatched strategy on the (i+1)-th
attempt; an unknown tag throws `AppError(400, "Invalid rate limiting strategy")`
from inside the operation. -/
def checkLimit (cfg : IRateLimitConfig) (limiter : Nat → Except JsError Bool) :
    Except JsError Bool × Nat × Nat :=
  executeWithRetry (rlMaxRetries cfg) (rlTimeout cfg)
    (fun i =>
      if strategySupported cfg.strategy then limiter i
      else Except.error ⟨"Invalid rate limiting strategy", some 400⟩)

/-! Proxy route, queueing and status route (`routes/proxy.ts`) -/

/-- The hash stored under `app:<id>`. -/
structure AppRecord where
  name : String
  baseUrl : String
  rateLimit : String
  userId : String
deriving DecidableEq, Repr

/-- A serialised deferred request as appended to a node's stream. -/
structure DeferredRequest where
  id : String
  appId : String
  path : String
  method : String
  baseUrl : String
  headers : List (String × String)
  body : Option String
deriving DecidableEq, Repr

/-- The slice of the shared Redis store the proxy and status routes touch:
`app:*` hashes, plain string keys (`response:*`), and per-node streams. -/
structure KV where
  apps : String → Option AppRecord
  strings : String → Option String
  streams : String → List DeferredRequest

/-- Responses produced by the gateway routes. -/
inductive Reply
  | errorReply (status : Nat) (message : String)
  | queuedReply (status : Nat) (requestId : String) (message : String)
  | forwardedReply (status : Nat)
  | successData (data : String)
deriving DecidableEq, Repr

/-- The HTTP status code a reply is sent with. -/
def Reply.httpStatus : Reply → Nat
  | Reply.errorReply s _ => s
  | Reply.queuedReply s _ _ => s
  | Reply.forwardedReply s => s
  | Reply.successData _ => 200

/-- The incoming client request as the proxy middleware sees it. -/
structure HttpReq where
  method : String
  headers : List (String × String)
  body : Option String
deriving DecidableEq, Repr

/-- Modelled from the spec: the stream-based `QueueService.enqueueRequest`
revision is not present under `src/` — the file there is an older sorted-set
revision, while its current callers are (`proxy.ts` constructs
`new QueueService(redis, serverId)` and the worker consumes `stream:<serverId>`).
Per spec sections 4.3/4.6: serialise the request record and append it to this
node's stream `stream:<serverId>`. -/
def enqueueRequest (serverId : String) (record : DeferredRequest) (kv : KV) : KV :=
  ⟨kv.apps, kv.strings,
   fun k => if k = "stream:" ++ serverId then kv.streams k ++ [record] else kv.streams k⟩

/-- The proxy middleware body (`router.use("/:appId/*")`).  `allowed` is the
rate-limit decision `checkLimit` returned, `ticket` the freshly generated request
id, `upstreamStatus` the status the upstream fetch would return on the admit
path.  Unknown app ⇒ `AppError(404)`.  Denied ⇒ enqueue the serialised record
(body dropped for GET/HEAD) and answer `202` with the ticket. -/
def proxyMiddleware (kv : KV) (serverId : String) (appId : String) (tail : String)
    (req : HttpReq) (allowed : Bool) (ticket : String) (upstreamStatus : Nat) :
    Reply × KV :=
  match kv.apps ("app:" ++ appId) with
  | none => (Reply.errorReply 404 "Application not found", kv)
  | some app =>
    if allowed then (Reply.forwardedReply upstreamStatus, kv)
    else
      let record : DeferredRequest :=
        ⟨ticket, appId, tail, req.method, app.baseUrl, req.headers,
         if req.method = "GET" ∨ req.method = "HEAD" then none else req.body⟩
      (Reply.queuedReply 202 ticket ("Request enqueued due to rate limit"),
       enqueueRequest serverId record kv)

/-- Model of `QueueService.getRequestStatus`: read the `response:<requestId>` key. -/
def getRequestStatus (kv : KV) (requestId : String) : Option String :=
  kv.strings ("response:" ++ requestId)

/-- The `/status/:requestId` handler: 404 when no outcome is stored, otherwise a
success envelope around the stored outcome.  The store is returned unchanged. -/
def statusRoute (kv : KV) (requestId : String) : Reply × KV :=
  match getRequestStatus kv requestId with
  | none => (Reply.errorReply 404 "Request not found", kv)
  | some s => (Reply.successData s, kv)

/-- Variant that follows the spec's words for C5 (refinement comparison only):
an absent outcome record yields a pending status instead of an error. -/
def statusRouteSpecced (kv : KV) (requestId : String) : Reply × KV :=
  match getRequestStatus kv requestId with
  | none => (Reply.successData ("pending"), kv)
  | some s => (Reply.successData s, kv)

/-- Which registered route a path's segment list lands on. -/
inductive Matched
  | proxyM (appId : String) (tail : List String)
  | statusM (requestId : String)
  | noRoute
deriving DecidableEq, Repr

/-- Express dispatch over the two registrations of `proxyRouter`, in registration
order: `router.use("/:appId/*")` first (it matches any path of at least two
segments, binding the first to `appId`), then `router.get("/status/:requestId")`
(exactly the two segments `status`/`<id>`). -/
def dispatch (segs : List String) : Matched :=
  if 2 ≤ segs.length then
    match segs with
    | appId :: rest => Matched.proxyM appId rest
    | [] => Matched.noRoute
  else
    match segs with
    | ["status", rid] => Matched.statusM rid
    | _ => Matched.noRoute

/-- The `/apis` router as mounted: dispatch, then run the matched handler. -/
def gateway (kv : KV) (serverId : String) (req : HttpReq) (allowed : Bool)
    (ticket : String) (upstreamStatus : Nat) (segs : List String) : Reply × KV :=
  match dispatch segs with
  | Matched.proxyM appId rest =>
    proxyMiddleware kv serverId appId (String.intercalate ("/") rest) req allowed ticket
      upstreamStatus
  | Matched.statusM rid => statusRoute kv rid
  | Matched.noRoute => (Reply.errorReply 404 "Not found", kv)

/-! Node-id allocation (`WorkerManager`) -/

/-- The constant `WorkerManager.MAX_SERVER_ID`. -/
def MAX_SERVER_ID : Nat := 100

/-- The node-id allocator's shared state: the `server:pool` free set (`SPOP` is
modelled as popping the head) and the `server:counter` value. -/
structure AllocState where
  pool : List String
  counter : Nat
deriving DecidableEq, Repr

/-- Model of `WorkerManager.getAvailableServerId`: pop a pooled id if any; otherwise
`INCR server:counter` (the increment sticks even on failure) and fail once the
counter exceeds `MAX_SERVER_ID`, else mint `server:<n>`. -/
def getAvailableServerId (st : AllocState) : Except String String × AllocState :=
  match st.pool with
  | id :: rest => (Except.ok id, ⟨rest, st.counter⟩)
  | [] =>
    let c := st.counter + 1
    if MAX_SERVER_ID < c then
      (Except.error ("Maximum number of server IDs reached"), ⟨[], c⟩)
    else
      (Except.ok ("server:" ++ toString c), ⟨[], c⟩)

/-- Model of the id-release in `WorkerManager.shutdown`: `SADD server:pool <id>` (a set add: no duplicate). -/
def releaseServerId (id : String) (st : AllocState) : AllocState :=
  if st.pool.contains id then st else ⟨id :: st.pool, st.counter⟩

/-- A lifetime of allocator traffic: interleaved startups and shutdowns. -/
inductive AllocOp
  | acquire
  | release (id : String)

/-- Run a lifetime of allocator traffic, counting how many ids were freshly
minted (as opposed to re-acquired from the pool). -/
def runAlloc : AllocState → List AllocOp → AllocState × Nat
  | st, [] => (st, 0)
  | st, AllocOp.acquire :: ops =>
    let r := getAvailableServerId st
    let fresh := match st.pool, r.1 with
      | [], Except.ok _ => 1
      | _, _ => 0
    let rest := runAlloc r.2 ops
    (rest.1, fresh + rest.2)
  | st, AllocOp.release id :: ops => runAlloc (releaseServerId id st) ops

/-- The successive results of `n` startup attempts. -/
def acquireSeq : AllocState → Nat → List (Except String String)
  | _, 0 => []
  | st, n + 1 =>
    let r := getAvailableServerId st
    r.1 :: acquireSeq r.2 n

/-! Stream trimming (`WorkerManager.manageWorkers`) -/

/-- One stream entry: its auto-generated id (ordered) and opaque payload. -/
structure StreamEntry where
  id : Nat
  payload : String
deriving DecidableEq, Repr

/-- The trim step of `WorkerManager.manageWorkers`: when `XLEN` exceeds
`maxStreamLength`, read the oldest pending entry of the consumer group
(`XPENDING ... - + 1`) and, only if one exists, `XTRIM MINID <oldest>` — which
drops exactly the entries with a strictly smaller id. -/
def manageWorkersTrim (maxStreamLength : Nat) (stream : List StreamEntry)
    (pending : Finset Nat) : List StreamEntry :=
  if maxStreamLength < stream.length then
    if h : pending.Nonempty then stream.filter (fun e => pending.min' h ≤ e.id)
    else stream
  else stream

/-! Application creation validation (`appsRouter` POST /) -/

/-- The `rateLimit` object of a POST /apps body, as JSON delivers it. -/
structure RateLimitBody where
  strategy : String
  requests : Option Nat
  window : Option Nat
deriving DecidableEq, Repr

/-- JS truthiness of an optional string (`undefined` and `""` are falsy). -/
def truthyStr : Option String → Bool
  | some s => if s = "" then false else true
  | none => false

/-- JS truthiness of an optional number (`undefined` and `0` are falsy). -/
def truthyNat : Option Nat → Bool
  | some n => if n = 0 then false else true
  | none => false

/-- The strategy tags POST /apps accepts. -/
def allowedStrategies : List String := ["fixed_window", "sliding_window", "token_bucket"]

/-- The validation chain of `appsRouter` POST /: required fields, then the
strategy allow-list, then required numeric rate-limit fields. -/
def validateCreateApp (name baseUrl : Option String) (rateLimit : Option RateLimitBody) :
    Except AppError Unit :=
  if truthyStr name && truthyStr baseUrl && rateLimit.isSome then
    match rateLimit with
    | some rl =>
      if allowedStrategies.contains rl.strategy then
        if truthyNat rl.requests && truthyNat rl.window then Except.ok ()
        else Except.error ⟨400, "Rate limit requests and window are required"⟩
      else Except.error ⟨400, "Invalid rate limiting strategy"⟩
    | none => Except.error ⟨400, "Name, baseUrl, and rateLimit are required"⟩
  else Except.error ⟨400, "Name, baseUrl, and rateLimit are required"⟩

/-- The `JSON.stringify` of a rateLimit body, as PUT /apps/:appId stores it. -/
def stringifyRateLimit (rl : RateLimitBody) : String :=
  "\x7b\"strategy\":\"" ++ rl.strategy ++ "\"" ++
  (match rl.requests with
   | some n => ",\"requests\":" ++ toString n
   | none => "") ++
  (match rl.window with
   | some n => ",\"window\":" ++ toString n
   | none => "") ++ "\x7d"

/-- JS conditional field update `if (x) updates.f = x` over the stored value. -/
def jsUpdateStr (x : Option String) (old : String) : String :=
  if truthyStr x then x.getD old else old

/-- Model of `appsRouter` PUT /apps/:appId: after the JWT/API-key middleware and
the ownership check (`404 Application not found` when the app is not the
user's), apply the requested field updates to the stored hash — `if (name)
updates.name = name`, likewise for `baseUrl`, and `if (rateLimit)
updates.rateLimit = JSON.stringify(rateLimit)` — with **no** validation of the
rate-limit strategy. -/
def updateApp (isUserApp : Bool) (name baseUrl : Option String)
    (rateLimit : Option RateLimitBody) (app : AppRecord) : Except AppError AppRecord :=
  if isUserApp then
    Except.ok ⟨jsUpdateStr name app.name, jsUpdateStr baseUrl app.baseUrl,
               (match rateLimit with
                | some rl => stringifyRateLimit rl
                | none => app.rateLimit),
               app.userId⟩
  else Except.error ⟨404, "Application not found"⟩

/-! Concrete fixtures used by witnesses and counterexamples -/

/-- Config with strategy fixed_window, window 1 s, requests 2. -/
def fwCfgEx : IRateLimitConfig := ⟨1, none, 2, none, none, none, "fixed_window"⟩

/-- Config with strategy token_bucket, window 60 s, requests 2 (burst and refillRate defaulted). -/
def tbCfgEx : IRateLimitConfig := ⟨60, none, 2, none, none, none, "token_bucket"⟩

/-- Config with strategy sliding_log, window 1 s, requests 1. -/
def slCfgEx1 : IRateLimitConfig := ⟨1, none, 1, none, none, none, "sliding_log"⟩

/-- Config with strategy sliding_log, window 1 s, requests 2. -/
def slCfgEx2 : IRateLimitConfig := ⟨1, none, 2, none, none, none, "sliding_log"⟩

/-- A config whose strategy tag matches none of the five limiters. -/
def bogusCfgEx : IRateLimitConfig := ⟨1, none, 1, none, none, none, "bogus"⟩

/-- An empty store. -/
def kv0 : KV := ⟨fun _ => none, fun _ => none, fun _ => []⟩

/-- A registered application record. -/
def appRecEx : AppRecord := ⟨"My API", "http://upstream", "\x7b\x7d", "user@example.com"⟩

/-- A store holding exactly the application `a1`. -/
def kvApp : KV :=
  ⟨fun k => if k = "app:" ++ "a1" then some appRecEx else none, fun _ => none, fun _ => []⟩

/-- A bodyless GET request. -/
def req0 : HttpReq := ⟨"GET", [], none⟩

/-! Theorems -/

/-- C1, counterexample to the claim as stated: with `window = 1` s, `requests = 2`
and admits at `t = 0` ms and `t = 500` ms, the second admit re-runs `EXPIRE`, so
the stored expiry is `1500` ms — whereas TTL-on-first-write-only semantics (the
claim's words, `fixedWindowFirstWriteTTL`) would leave it at `1000` ms. -/
theorem fixedWindow_ttl_cex :
    (fixedWindow fwCfgEx ((fixedWindow fwCfgEx (fun _ => none) 0).2) 500).1 = true ∧
    (fixedWindow fwCfgEx ((fixedWindow fwCfgEx (fun _ => none) 0).2) 500).2 0 =
      some ⟨2, 1500⟩ ∧
    (fixedWindowFirstWriteTTL fwCfgEx
        ((fixedWindowFirstWriteTTL fwCfgEx (fun _ => none) 0).2) 500).2 0 =
      some ⟨2, 1000⟩ ∧
    (1500 : Nat) ≠ 1000 := by
  decide

/-- C1 (amended): a `fixed_window` decision at time `now` denies exactly when the
stored counter of bucket `floor(now / (window·1000))` is at least `requests`; a
deny leaves the store untouched; an admit increments that counter, sets the
key's TTL to `window` seconds on **every** admit (not only the first write of the
window), and touches no other bucket. -/
theorem fixedWindow_ttl_amended (cfg : IRateLimitConfig) (st : Nat → Option FWEntry)
    (now : Nat) :
    ((fixedWindow cfg st now).1 = false ↔ cfg.requests ≤ fwCount st (fwBucket cfg now)) ∧
    ((fixedWindow cfg st now).1 = false → (fixedWindow cfg st now).2 = st) ∧
    ((fixedWindow cfg st now).1 = true →
      (fixedWindow cfg st now).2 (fwBucket cfg now) =
        some ⟨fwCount st (fwBucket cfg now) + 1, now + cfg.window * 1000⟩ ∧
      ∀ b, b ≠ fwBucket cfg now → (fixedWindow cfg st now).2 b = st b) := by
  unfold fixedWindow
  by_cases h : cfg.requests ≤ fwCount st (fwBucket cfg now)
  · simp [h]
  · refine ⟨by simp [h], by simp [h], fun _ => ⟨by simp [h], fun b hb => by simp [h, hb]⟩⟩

/-- C1 witness: the amended theorem applied at the concrete first admit. -/
theorem fixedWindow_ttl_amended_witness :
    (fixedWindow fwCfgEx (fun _ => none) 0).2 (fwBucket fwCfgEx 0) =
      some ⟨fwCount (fun _ => none) (fwBucket fwCfgEx 0) + 1, 0 + fwCfgEx.window * 1000⟩ :=
  ((fixedWindow_ttl_amended fwCfgEx (fun _ => none) 0).2.2 (by decide)).1

/-- C4: when the proxy middleware's rate-limit decision denies a request for an
existing application, the reply is `202` with the fresh ticket and the queued
message (never a `429`), and the serialised request record is appended to this
node's stream, with the rest of the store untouched. -/
theorem proxy_deny_enqueues_202 (kv : KV) (serverId appId tail : String) (req : HttpReq)
    (ticket : String) (upstreamStatus : Nat) (app : AppRecord)
    (happ : kv.apps ("app:" ++ appId) = some app) :
    (proxyMiddleware kv serverId appId tail req false ticket upstreamStatus).1 =
      Reply.queuedReply 202 ticket ("Request enqueued due to rate limit") ∧
    ((proxyMiddleware kv serverId appId tail req false ticket upstreamStatus).1).httpStatus
      = 202 ∧
    ((proxyMiddleware kv serverId appId tail req false ticket upstreamStatus).1).httpStatus
      ≠ 429 ∧
    (proxyMiddleware kv serverId appId tail req false ticket upstreamStatus).2.streams
        ("stream:" ++ serverId) =
      kv.streams ("stream:" ++ serverId) ++
        [⟨ticket, appId, tail, req.method, app.baseUrl, req.headers,
          if req.method = "GET" ∨ req.method = "HEAD" then none else req.body⟩] ∧
    (proxyMiddleware kv serverId appId tail req false ticket upstreamStatus).2.apps =
      kv.apps ∧
    (proxyMiddleware kv serverId appId tail req false ticket upstreamStatus).2.strings =
      kv.strings := by
  unfold proxyMiddleware
  rw [happ]
  simp [enqueueRequest, Reply.httpStatus]

/-- C4 witness: the theorem applied at a concrete store, request and ticket. -/
theorem proxy_deny_enqueues_202_witness :
    (proxyMiddleware kvApp ("s1") ("a1") ("p") req0 false ("tk") 200).1 =
      Reply.queuedReply 202 ("tk") ("Request enqueued due to rate limit") :=
  (proxy_deny_enqueues_202 kvApp ("s1") ("a1") ("p") req0 ("tk") 200 appRecEx (by rfl)).1

/-- C5, counterexample to the claim as stated: with no stored outcome the status
route replies `404 Request not found`, not the pending status the claim (and
`statusRouteSpecced`, which follows its words) prescribes. -/
theorem status_route_cex :
    (statusRoute kv0 ("t1")).1 = Reply.errorReply 404 ("Request not found") ∧
    (statusRouteSpecced kv0 ("t1")).1 = Reply.successData ("pending") ∧
    Reply.errorReply 404 ("Request not found") ≠ Reply.successData ("pending") := by
  decide

/-- C5 (amended): for every ticket id the status route reads `response:<ticketId>`
and, when the record is absent, replies with a `404 Request not found` error;
otherwise it returns the stored outcome; in neither case does it mutate any
state. -/
theorem status_route_amended :
    (∀ kv rid, getRequestStatus kv rid = none →
      statusRoute kv rid = (Reply.errorReply 404 ("Request not found"), kv)) ∧
    (∀ kv rid s, getRequestStatus kv rid = some s →
      statusRoute kv rid = (Reply.successData s, kv)) ∧
    (∀ kv rid, (statusRoute kv rid).2 = kv) := by
  refine ⟨fun kv rid h => by simp [statusRoute, h],
          fun kv rid s h => by simp [statusRoute, h],
          fun kv rid => ?_⟩
  unfold statusRoute
  cases getRequestStatus kv rid <;> simp

/-- C5 witness: the amended theorem applied to the empty store. -/
theorem status_route_amended_witness :
    statusRoute kv0 ("t1") = (Reply.errorReply 404 ("Request not found"), kv0) :=
  status_route_amended.1 kv0 ("t1") (by rfl)

/-- C9: a GET to `/apis/status/<ticketId>` is matched by the proxy middleware
(registered first) with app id `status`; when no application record exists under
`app:status` the request dies with `404 Application not found` and the dedicated
status handler is never reached. -/
theorem status_path_shadowed :
    (∀ tid : String, dispatch ["status", tid] = Matched.proxyM ("status") [tid]) ∧
    (∀ (tid : String) (kv : KV) (serverId : String) (req : HttpReq) (allowed : Bool)
       (ticket : String) (upstreamStatus : Nat),
      kv.apps ("app:status") = none →
      gateway kv serverId req allowed ticket upstreamStatus ["status", tid] =
        (Reply.errorReply 404 ("Application not found"), kv)) := by
  constructor
  · intro tid
    rfl
  · intro tid kv serverId req allowed ticket upstreamStatus h
    have hkey : ("app:" ++ "status" : String) = "app:status" := rfl
    simp [gateway, dispatch, proxyMiddleware, hkey, h]

/-- C9 witness: the theorem applied at a concrete ticket id over the empty store. -/
theorem status_path_shadowed_witness :
    gateway kv0 ("s1") req0 true ("tk") 200 ["status", "t9"] =
      (Reply.errorReply 404 ("Application not found"), kv0) :=
  status_path_shadowed.2 ("t9") kv0 ("s1") req0 true ("tk") 200 (by rfl)

/-- C10, counterexample to the claim as stated: `leaky_bucket` and `sliding_log`
are **not** unreachable through the management API — PUT /apps/:appId stores a
`leaky_bucket` rateLimit body for an owned application without any strategy
validation (`if (rateLimit) updates.rateLimit = JSON.stringify(rateLimit)`), and
the engine's `checkLimit` switch dispatches that tag; only POST /apps rejects
it. -/
theorem create_app_strategy_cex :
    updateApp true none none (some ⟨"leaky_bucket", some 1, some 1⟩) appRecEx =
      Except.ok ⟨"My API", "http://upstream",
        stringifyRateLimit ⟨"leaky_bucket", some 1, some 1⟩, "user@example.com"⟩ ∧
    strategySupported ("leaky_bucket") = true ∧
    validateCreateApp (some ("My API")) (some ("http://upstream"))
        (some ⟨"leaky_bucket", some 1, some 1⟩) =
      Except.error ⟨400, "Invalid rate limiting strategy"⟩ :=
  ⟨rfl, by decide, rfl⟩

/-- C10 (amended): POST /apps rejects `leaky_bucket` and `sliding_log` configs
with `400 Invalid rate limiting strategy` (given the required name/baseUrl
fields) and accepts only the three allow-listed tags, even though the engine's
`checkLimit` switch implements both rejected strategies — so the two strategies
are unreachable through application **creation**; they are not unreachable
through the management API as a whole, because PUT /apps/:appId applies a
`rateLimit` update with no strategy validation, storing any body verbatim for an
owned application. -/
theorem create_app_strategy_surface :
    (∀ (name baseUrl : Option String) (rl : RateLimitBody),
      truthyStr name = true → truthyStr baseUrl = true →
      rl.strategy = "leaky_bucket" ∨ rl.strategy = "sliding_log" →
      validateCreateApp name baseUrl (some rl) =
        Except.error ⟨400, "Invalid rate limiting strategy"⟩) ∧
    strategySupported ("leaky_bucket") = true ∧
    strategySupported ("sliding_log") = true ∧
    (∀ (name baseUrl : Option String) (rl : RateLimitBody),
      validateCreateApp name baseUrl (some rl) = Except.ok () →
      allowedStrategies.contains rl.strategy = true) ∧
    (∀ (name baseUrl : Option String) (rl : RateLimitBody) (app : AppRecord),
      ∃ rec : AppRecord, updateApp true name baseUrl (some rl) app = Except.ok rec ∧
        rec.rateLimit = stringifyRateLimit rl) := by
  refine ⟨?_, by decide, by decide, ?_, fun name baseUrl rl app => ⟨_, rfl, rfl⟩⟩
  · intro name baseUrl rl h1 h2 h3
    have hc : rl.strategy ∉ allowedStrategies := by
      rcases h3 with h | h <;> rw [h] <;> decide
    simp [validateCreateApp, h1, h2, hc]
  · intro name baseUrl rl h
    simp only [validateCreateApp] at h
    split at h
    · split at h
      · assumption
      · exact absurd h (by simp)
    · exact absurd h (by simp)

/-- C10 witness: the theorem applied to a concrete well-formed `leaky_bucket` body. -/
theorem create_app_strategy_surface_witness :
    validateCreateApp (some ("My API")) (some ("http://u"))
        (some ⟨"leaky_bucket", some 1, some 1⟩) =
      Except.error ⟨400, "Invalid rate limiting strategy"⟩ :=
  create_app_strategy_surface.1 (some ("My API")) (some ("http://u"))
    ⟨"leaky_bucket", some 1, some 1⟩ (by decide) (by decide) (Or.inl rfl)

/-- C8: the manager's trim step is safe — every pending (delivered, unacked)
entry that is in the stream survives the trim; the trim only removes entries,
does nothing when the length is within the cap or no pending entry exists, and
any removed entry sat strictly before the oldest pending id while the length was
above the cap; the cap defaults to 10000 via `??`. -/
theorem manage_workers_trim_safety :
    (∀ (maxLen : Nat) (stream : List StreamEntry) (pending : Finset Nat) (p : Nat),
      p ∈ pending → (∃ e ∈ stream, e.id = p) →
      ∃ e ∈ manageWorkersTrim maxLen stream pending, e.id = p) ∧
    (∀ (maxLen : Nat) (stream : List StreamEntry) (pending : Finset Nat)
       (e : StreamEntry), e ∈ manageWorkersTrim maxLen stream pending → e ∈ stream) ∧
    (∀ (maxLen : Nat) (stream : List StreamEntry) (pending : Finset Nat),
      stream.length ≤ maxLen → manageWorkersTrim maxLen stream pending = stream) ∧
    (∀ (maxLen : Nat) (stream : List StreamEntry),
      manageWorkersTrim maxLen stream ∅ = stream) ∧
    (∀ (maxLen : Nat) (stream : List StreamEntry) (pending : Finset Nat)
       (e : StreamEntry), e ∈ stream → e ∉ manageWorkersTrim maxLen stream pending →
      maxLen < stream.length ∧ ∃ h : pending.Nonempty, e.id < pending.min' h) ∧
    nullishOr none 10000 = 10000 := by
  refine ⟨?_, ?_, ?_, ?_, ?_, rfl⟩
  · intro maxLen stream pending p hp he
    obtain ⟨e, he, hid⟩ := he
    unfold manageWorkersTrim
    split
    · split
      · exact ⟨e, List.mem_filter.mpr ⟨he, by simp [hid]; exact Finset.min'_le _ _ hp⟩, hid⟩
      · exact ⟨e, he, hid⟩
    · exact ⟨e, he, hid⟩
  · intro maxLen stream pending e h
    unfold manageWorkersTrim at h
    split at h
    · split at h
      · exact (List.mem_filter.mp h).1
      · exact h
    · exact h
  · intro maxLen stream pending h
    unfold manageWorkersTrim
    rw [if_neg (by omega)]
  · intro maxLen stream
    unfold manageWorkersTrim
    split <;> simp [Finset.not_nonempty_empty]
  · intro maxLen stream pending e he hn
    unfold manageWorkersTrim at hn
    by_cases hlen : maxLen < stream.length
    · rw [if_pos hlen] at hn
      refine ⟨hlen, ?_⟩
      by_cases hne : pending.Nonempty
      · rw [dif_pos hne] at hn
        refine ⟨hne, ?_⟩
        by_contra hle
        push_neg at hle
        exact hn (List.mem_filter.mpr ⟨he, by simpa using hle⟩)
      · rw [dif_neg hne] at hn
        exact absurd he hn
    · rw [if_neg hlen] at hn
      exact absurd he hn

/-- C8 witness: the safety conjunct applied to a concrete over-full stream. -/
theorem manage_workers_trim_safety_witness :
    ∃ e ∈ manageWorkersTrim 1 [⟨3, "a"⟩, ⟨5, "b"⟩] {5}, e.id = 5 :=
  manage_workers_trim_safety.1 1 [⟨3, "a"⟩, ⟨5, "b"⟩] {5} 5 (by decide) (by decide)

/-- Shutdown never changes the shared counter. -/
theorem releaseServerId_counter (id : String) (st : AllocState) :
    (releaseServerId id st).counter = st.counter := by
  unfold releaseServerId
  split <;> rfl

/-- Over any lifetime of allocator traffic, the number of freshly minted node ids
is bounded by what is left of the counter budget. -/
theorem runAlloc_fresh_le (ops : List AllocOp) :
    ∀ st : AllocState, (runAlloc st ops).2 ≤ MAX_SERVER_ID - st.counter := by
  induction ops with
  | nil => intro st; simp [runAlloc]
  | cons op ops ih =>
    intro st
    obtain ⟨pool, counter⟩ := st
    cases op with
    | acquire =>
      cases pool with
      | cons id rest =>
        simpa [runAlloc, getAvailableServerId] using ih ⟨rest, counter⟩
      | nil =>
        by_cases hc : MAX_SERVER_ID < counter + 1
        · have h2 := ih ⟨[], counter + 1⟩
          simp [runAlloc, getAvailableServerId, hc] at h2 ⊢
          omega
        · have h2 := ih ⟨[], counter + 1⟩
          simp [runAlloc, getAvailableServerId, hc] at h2 ⊢
          simp [MAX_SERVER_ID] at hc h2 ⊢
          omega
    | release id =>
      have h2 := ih (releaseServerId id ⟨pool, counter⟩)
      rw [releaseServerId_counter] at h2
      simpa [runAlloc] using h2

set_option maxRecDepth 8000 in
/-- C7: at most 100 node ids are ever freshly minted across any lifetime of the
allocator starting from the initial state; allocation pops the free pool first
and otherwise increments the shared counter, failing whenever the counter would
exceed 100; a released id is re-acquired by the next empty-pool startup; and
starting from an empty pool, 101 serial startup attempts yield exactly 100
distinct new ids and a deterministic failure on the 101st. -/
theorem server_id_allocation :
    (∀ ops : List AllocOp, (runAlloc ⟨[], 0⟩ ops).2 ≤ MAX_SERVER_ID) ∧
    (∀ (st : AllocState) (id : String) (rest : List String), st.pool = id :: rest →
      getAvailableServerId st = (Except.ok id, ⟨rest, st.counter⟩)) ∧
    (∀ c : Nat, MAX_SERVER_ID ≤ c →
      (getAvailableServerId ⟨[], c⟩).1 =
        Except.error ("Maximum number of server IDs reached")) ∧
    (∀ (c : Nat) (id : String),
      getAvailableServerId (releaseServerId id ⟨[], c⟩) = (Except.ok id, ⟨[], c⟩)) ∧
    (acquireSeq ⟨[], 0⟩ 101).take 100 =
      (List.range 100).map (fun n => Except.ok ("server:" ++ toString (n + 1))) ∧
    (acquireSeq ⟨[], 0⟩ 101).getLast? =
      some (Except.error ("Maximum number of server IDs reached")) := by
  refine ⟨?_, ?_, ?_, ?_, by rfl, by rfl⟩
  · intro ops
    simpa using runAlloc_fresh_le ops ⟨[], 0⟩
  · intro st id rest h
    obtain ⟨pool, counter⟩ := st
    subst h
    rfl
  · intro c h
    simp [getAvailableServerId, show MAX_SERVER_ID < c + 1 by omega]
  · intro c id
    simp [releaseServerId, getAvailableServerId]

/-- C7 witness: the counter-exhaustion conjunct applied at counter 100. -/
theorem server_id_allocation_witness :
    (getAvailableServerId ⟨[], 100⟩).1 =
      Except.error ("Maximum number of server IDs reached") :=
  server_id_allocation.2.2.1 100 (by decide)

/-- The constructor default `maxRetries || 3` is always at least one. -/
theorem rlMaxRetries_pos (cfg : IRateLimitConfig) : 1 ≤ rlMaxRetries cfg := by
  unfold rlMaxRetries jsOrNat
  cases cfg.clusterConfig.bind (fun c => c.maxRetries) with
  | none => dsimp only; omega
  | some v => dsimp only; split <;> omega

/-- A first attempt that throws a non-cluster error propagates it immediately:
one execution, no sleep. -/
theorem executeWithRetry_first_error (maxR T : Nat) (op : Nat → Except JsError Bool)
    (e : JsError) (hR : 1 ≤ maxR) (h0 : op 0 = Except.error e)
    (hce : isClusterError e = false) :
    executeWithRetry maxR T op = (Except.error e, 0, 1) := by
  obtain ⟨R, rfl⟩ : ∃ R, maxR = R + 1 := ⟨maxR - 1, by omega⟩
  unfold executeWithRetry
  simp [executeWithRetryAux, h0, hce]

/-- A run whose every attempt throws a cluster error burns the whole budget:
`fuel` executions, `fuel` sleeps of `T`, then the synthetic 500. -/
theorem executeWithRetryAux_all_cluster (maxR T : Nat) (op : Nat → Except JsError Bool) :
    ∀ (fuel r0 : Nat) (last : Option String),
      (∀ i, r0 ≤ i → i < r0 + fuel → ∃ e, op i = Except.error e ∧ isClusterError e = true) →
      ∃ msg, executeWithRetryAux maxR T op fuel r0 last =
        (Except.error ⟨msg, some 500⟩, fuel * T, fuel) := by
  intro fuel
  induction fuel with
  | zero =>
    intro r0 last _
    exact ⟨failAfterMsg maxR (renderLast last), by simp [executeWithRetryAux]⟩
  | succ n ih =>
    intro r0 last hall
    obtain ⟨e, he, hce⟩ := hall r0 (le_refl r0) (by omega)
    obtain ⟨msg, hmsg⟩ := ih (r0 + 1) (some e.message) (fun i h1 h2 => hall i (by omega) (by omega))
    exact ⟨msg, by simp [executeWithRetryAux, he, hce, hmsg, Nat.succ_mul]⟩

/-- C6: `checkLimit` retries only transient cluster-redirect errors (message
containing MOVED or ASK): the constructor defaults are 3 retries and a 5000 ms
delay; a non-cluster error on the first attempt propagates immediately with no
retry and no delay; when every attempt fails with a cluster error the loop runs
exactly `maxRetries` attempts, sleeping the fixed delay after each, and then
surfaces a 500 `AppError`; an invalid strategy tag yields the 400 configuration
error immediately. -/
theorem checkLimit_retry_policy :
    (∀ cfg : IRateLimitConfig, cfg.clusterConfig = none →
      rlMaxRetries cfg = 3 ∧ rlTimeout cfg = 5000) ∧
    (∀ (maxR T : Nat) (op : Nat → Except JsError Bool) (e : JsError),
      1 ≤ maxR → op 0 = Except.error e → isClusterError e = false →
      executeWithRetry maxR T op = (Except.error e, 0, 1)) ∧
    (∀ (maxR T : Nat) (op : Nat → Except JsError Bool),
      (∀ i, i < maxR → ∃ e, op i = Except.error e ∧ isClusterError e = true) →
      ∃ msg, executeWithRetry maxR T op =
        (Except.error ⟨msg, some 500⟩, maxR * T, maxR)) ∧
    (∀ (cfg : IRateLimitConfig) (limiter : Nat → Except JsError Bool),
      strategySupported cfg.strategy = false →
      checkLimit cfg limiter =
        (Except.error ⟨"Invalid rate limiting strategy", some 400⟩, 0, 1)) := by
  refine ⟨?_, ?_, ?_, ?_⟩
  · intro cfg h
    unfold rlMaxRetries rlTimeout jsOrNat
    rw [h]
    simp [Option.bind]
  · exact executeWithRetry_first_error
  · intro maxR T op hall
    exact executeWithRetryAux_all_cluster maxR T op maxR 0 none
      (fun i h1 h2 => hall i (by omega))
  · intro cfg limiter h
    unfold checkLimit
    apply executeWithRetry_first_error
    · exact rlMaxRetries_pos cfg
    · simp [h]
    · decide

/-- C6 witness: the invalid-strategy conjunct applied to a concrete config. -/
theorem checkLimit_retry_policy_witness :
    checkLimit bogusCfgEx (fun _ => Except.ok true) =
      (Except.error ⟨"Invalid rate limiting strategy", some 400⟩, 0, 1) :=
  checkLimit_retry_policy.2.2.2 bogusCfgEx (fun _ => Except.ok true) (by decide)

/-- With no stored hash the refilled count is exactly `burst`. -/
theorem tbCur_none (cfg : IRateLimitConfig) (now : Nat) :
    tbCur cfg none now = (tbBurst cfg : ℚ) := by
  simp [tbCur]

/-- A call at the very instant of the last refill adds no tokens. -/
theorem tbCur_const (cfg : IRateLimitConfig) (q : ℚ) (t e : Nat) :
    tbCur cfg (some ⟨q, t, e⟩) t = min ((tbBurst cfg : ℚ)) q := by
  simp [tbCur]

/-- From an empty bucket refilled at `t`, a call at `t + d` sees
`d/1000 · refillRate` tokens, clamped to `burst`. -/
theorem tbCur_refill (cfg : IRateLimitConfig) (t e d : Nat) :
    tbCur cfg (some ⟨0, t, e⟩) (t + d) =
      min ((tbBurst cfg : ℚ)) ((d : ℚ) / 1000 * tbRate cfg) := by
  have hc : ((t + d : Nat) : ℚ) - (t : ℚ) = (d : ℚ) := by push_cast; ring
  simp [tbCur, hc]

/-- The deny branch of `tokenBucket`. -/
theorem tokenBucket_deny (cfg : IRateLimitConfig) (st : Option TBState) (now : Nat)
    (h : tbCur cfg st now < 1) : tokenBucket cfg st now = (false, st) := by
  unfold tokenBucket
  rw [if_pos h]

/-- The admit branch of `tokenBucket`. -/
theorem tokenBucket_grant (cfg : IRateLimitConfig) (st : Option TBState) (now : Nat)
    (h : ¬ tbCur cfg st now < 1) :
    tokenBucket cfg st now =
      (true, some ⟨tbCur cfg st now - 1, now,
                   now + (Int.ceil ((tbBurst cfg : ℚ) / tbRate cfg)).toNat * 2 * 1000⟩) := by
  unfold tokenBucket
  rw [if_neg h]

/-- A run of calls all at the refill instant `t` from an integral token count
`x ≤ burst` admits exactly the first `min m x` calls. -/
theorem tbDecisions_const (cfg : IRateLimitConfig) :
    ∀ (m x : Nat), x ≤ tbBurst cfg → ∀ (t e : Nat),
      tbDecisions cfg (some ⟨(x : ℚ), t, e⟩) (List.replicate m t) =
        List.replicate (min m x) true ++ List.replicate (m - min m x) false := by
  intro m
  induction m with
  | zero => intro x hx t e; simp [tbDecisions]
  | succ n ih =>
    intro x hx t e
    have hcur : tbCur cfg (some ⟨(x : ℚ), t, e⟩) t = (x : ℚ) := by
      rw [tbCur_const]
      exact min_eq_right (by exact_mod_cast hx)
    rcases Nat.eq_zero_or_pos x with hx0 | hx1
    · subst hx0
      have hlt : tbCur cfg (some ⟨((0 : Nat) : ℚ), t, e⟩) t < 1 := by rw [hcur]; norm_num
      simp only [List.replicate_succ, tbDecisions, tokenBucket_deny _ _ _ hlt]
      rw [ih 0 (Nat.zero_le _) t e]
      simp [List.replicate_succ]
    · have hge : ¬ tbCur cfg (some ⟨(x : ℚ), t, e⟩) t < 1 := by
        rw [hcur]
        exact not_lt.mpr (by exact_mod_cast hx1)
      have hxm : tbCur cfg (some ⟨(x : ℚ), t, e⟩) t - 1 = (((x - 1 : Nat)) : ℚ) := by
        rw [hcur, Nat.cast_sub hx1, Nat.cast_one]
      simp only [List.replicate_succ, tbDecisions, tokenBucket_grant _ _ _ hge, hxm]
      rw [ih (x - 1) (le_trans (Nat.sub_le x 1) hx) t _]
      have h1 : min (n + 1) x = min n (x - 1) + 1 := by omega
      have h2 : (n + 1) - min (n + 1) x = n - min n (x - 1) := by omega
      rw [h2, h1, List.replicate_succ]
      rfl

/-- From no stored hash, a same-instant run admits exactly the first
`min n burst` calls. -/
theorem tbDecisions_fromEmpty (cfg : IRateLimitConfig) :
    ∀ (n t : Nat),
      tbDecisions cfg none (List.replicate n t) =
        List.replicate (min n (tbBurst cfg)) true ++
        List.replicate (n - min n (tbBurst cfg)) false := by
  intro n
  induction n with
  | zero => intro t; simp [tbDecisions]
  | succ m ih =>
    intro t
    have hcur := tbCur_none cfg t
    rcases Nat.eq_zero_or_pos (tbBurst cfg) with hB | hB
    · have hlt : tbCur cfg none t < 1 := by rw [hcur, hB]; norm_num
      simp only [List.replicate_succ, tbDecisions, tokenBucket_deny _ _ _ hlt]
      rw [ih t]
      simp [hB, List.replicate_succ]
    · have hge : ¬ tbCur cfg none t < 1 := by
        rw [hcur]
        exact not_lt.mpr (by exact_mod_cast hB)
      have hxm : tbCur cfg none t - 1 = (((tbBurst cfg - 1 : Nat)) : ℚ) := by
        rw [hcur, Nat.cast_sub hB, Nat.cast_one]
      simp only [List.replicate_succ, tbDecisions, tokenBucket_grant _ _ _ hge, hxm]
      rw [tbDecisions_const cfg m (tbBurst cfg - 1) (Nat.sub_le _ _) t _]
      have h1 : min (m + 1) (tbBurst cfg) = min m (tbBurst cfg - 1) + 1 := by omega
      have h2 : (m + 1) - min (m + 1) (tbBurst cfg) = m - min m (tbBurst cfg - 1) := by omega
      rw [h2, h1, List.replicate_succ]
      rfl

/-- From an empty bucket refilled at `t`, a run of calls all at `t + d` — where
the idle gap refills an integral `k ≤ burst` tokens — admits exactly the first
`min m k` calls. -/
theorem tbDecisions_refill (cfg : IRateLimitConfig) (k : Nat) (hk : k ≤ tbBurst cfg) :
    ∀ (m t e d : Nat), (d : ℚ) / 1000 * tbRate cfg = (k : ℚ) →
      tbDecisions cfg (some ⟨0, t, e⟩) (List.replicate m (t + d)) =
        List.replicate (min m k) true ++ List.replicate (m - min m k) false := by
  intro m
  induction m with
  | zero => intro t e d hd; simp [tbDecisions]
  | succ n ih =>
    intro t e d hd
    have hcur : tbCur cfg (some ⟨0, t, e⟩) (t + d) = (k : ℚ) := by
      rw [tbCur_refill, hd]
      exact min_eq_right (by exact_mod_cast hk)
    rcases Nat.eq_zero_or_pos k with hk0 | hk1
    · subst hk0
      have hlt : tbCur cfg (some ⟨0, t, e⟩) (t + d) < 1 := by rw [hcur]; norm_num
      simp only [List.replicate_succ, tbDecisions, tokenBucket_deny _ _ _ hlt]
      rw [ih t e d hd]
      simp [List.replicate_succ]
    · have hge : ¬ tbCur cfg (some ⟨0, t, e⟩) (t + d) < 1 := by
        rw [hcur]
        exact not_lt.mpr (by exact_mod_cast hk1)
      have hxm : tbCur cfg (some ⟨0, t, e⟩) (t + d) - 1 = (((k - 1 : Nat)) : ℚ) := by
        rw [hcur, Nat.cast_sub hk1, Nat.cast_one]
      simp only [List.replicate_succ, tbDecisions, tokenBucket_grant _ _ _ hge, hxm]
      rw [tbDecisions_const cfg n (k - 1) (le_trans (Nat.sub_le k 1) hk) (t + d) _]
      have h1 : min (n + 1) k = min n (k - 1) + 1 := by omega
      have h2 : (n + 1) - min (n + 1) k = n - min n (k - 1) := by omega
      rw [h2, h1, List.replicate_succ]
      rfl

/-- Counting admits in a run that admits a prefix and denies the rest. -/
theorem count_true_replicate_append (a b : Nat) :
    (List.replicate a true ++ List.replicate b false).count true = a := by
  simp [List.count_append, List.count_replicate]

/-- C2, counterexample to the claim as stated: with `requests = 2` (so `burst`
defaults to 2 and `refillRate` to 1), starting empty, 3 calls in the same
millisecond admit 2 and deny the third; after idling `k = 5` seconds the claim
promises `floor(5) = 5` further admits, but the refill clamps to `burst`, so only
2 of the 6 further calls admit — 4 total admits, not `2 + 5`. -/
theorem tokenBucket_burst_cex :
    tbDecisions tbCfgEx none [0, 0, 0, 5000, 5000, 5000, 5000, 5000, 5000] =
      [true, true, false, true, true, false, false, false, false] ∧
    tbAdmitCount tbCfgEx none [0, 0, 0, 5000, 5000, 5000, 5000, 5000, 5000] = 4 ∧
    (4 : Nat) ≠ 2 + 5 := by
  have hB : tbBurst tbCfgEx = 2 := by norm_num [tbBurst, jsOrNat, tbCfgEx]
  have hr : tbRate tbCfgEx = 1 := by norm_num [tbRate, jsOrRat, tbCfgEx]
  have w1 : tokenBucket tbCfgEx none 0 =
      (true, some ⟨1, 0,
        0 + (Int.ceil ((tbBurst tbCfgEx : ℚ) / tbRate tbCfgEx)).toNat * 2 * 1000⟩) := by
    have hc : tbCur tbCfgEx none 0 = 2 := by
      rw [tbCur_none, hB]
      norm_num
    rw [tokenBucket_grant _ _ _ (by rw [hc]; norm_num), hc]
    norm_num
  have w2 : ∀ e, tokenBucket tbCfgEx (some ⟨1, 0, e⟩) 0 =
      (true, some ⟨0, 0,
        0 + (Int.ceil ((tbBurst tbCfgEx : ℚ) / tbRate tbCfgEx)).toNat * 2 * 1000⟩) := by
    intro e
    have hc : tbCur tbCfgEx (some ⟨1, 0, e⟩) 0 = 1 := by
      rw [tbCur_const, hB]
      norm_num [min_def]
    rw [tokenBucket_grant _ _ _ (by rw [hc]; norm_num), hc]
    norm_num
  have w3 : ∀ e, tokenBucket tbCfgEx (some ⟨0, 0, e⟩) 0 = (false, some ⟨0, 0, e⟩) := by
    intro e
    have hc : tbCur tbCfgEx (some ⟨0, 0, e⟩) 0 = 0 := by
      rw [tbCur_const, hB]
      norm_num [min_def]
    exact tokenBucket_deny _ _ _ (by rw [hc]; norm_num)
  have w4 : ∀ e, tokenBucket tbCfgEx (some ⟨0, 0, e⟩) 5000 =
      (true, some ⟨1, 5000,
        5000 + (Int.ceil ((tbBurst tbCfgEx : ℚ) / tbRate tbCfgEx)).toNat * 2 * 1000⟩) := by
    intro e
    have hc : tbCur tbCfgEx (some ⟨0, 0, e⟩) 5000 = 2 := by
      rw [show (5000 : Nat) = 0 + 5000 from rfl, tbCur_refill, hB, hr]
      norm_num [min_def]
    rw [tokenBucket_grant _ _ _ (by rw [hc]; norm_num), hc]
    norm_num
  have w5 : ∀ e, tokenBucket tbCfgEx (some ⟨1, 5000, e⟩) 5000 =
      (true, some ⟨0, 5000,
        5000 + (Int.ceil ((tbBurst tbCfgEx : ℚ) / tbRate tbCfgEx)).toNat * 2 * 1000⟩) := by
    intro e
    have hc : tbCur tbCfgEx (some ⟨1, 5000, e⟩) 5000 = 1 := by
      rw [tbCur_const, hB]
      norm_num [min_def]
    rw [tokenBucket_grant _ _ _ (by rw [hc]; norm_num), hc]
    norm_num
  have w6 : ∀ e, tokenBucket tbCfgEx (some ⟨0, 5000, e⟩) 5000 = (false, some ⟨0, 5000, e⟩) := by
    intro e
    have hc : tbCur tbCfgEx (some ⟨0, 5000, e⟩) 5000 = 0 := by
      rw [tbCur_const, hB]
      norm_num [min_def]
    exact tokenBucket_deny _ _ _ (by rw [hc]; norm_num)
  have hdec : tbDecisions tbCfgEx none [0, 0, 0, 5000, 5000, 5000, 5000, 5000, 5000] =
      [true, true, false, true, true, false, false, false, false] := by
    simp only [tbDecisions, w1, w2, w3, w4, w5, w6]
  refine ⟨hdec, ?_, by decide⟩
  unfold tbAdmitCount
  rw [hdec]
  decide

/-- C2 (amended): under `token_bucket` with `burst` defaulting to `requests` and
`refillRate` to 1, a decision denies exactly when the refilled-and-clamped token
count `min(burst, tokens + (now − lastRefill)/1000 · refillRate)` is below 1, and
an admit stores that count minus one with `lastRefill = now`; starting with no
stored state, of `n` decisions within the same millisecond exactly the first
`min(n, burst)` admit — so the first `burst` admit and the `(burst+1)`-th denies —
and after the bucket is empty, idling `k/refillRate` seconds yields exactly
`min(m, k)` admits among `m` further same-instant decisions, **provided
`k ≤ burst`** (the refill clamps at `burst`, so larger idle gaps still yield only
`burst` admits). -/
theorem tokenBucket_burst_amended (cfg : IRateLimitConfig) :
    (∀ (st : Option TBState) (now : Nat),
      ((tokenBucket cfg st now).1 = false ↔ tbCur cfg st now < 1) ∧
      ((tokenBucket cfg st now).1 = true →
        (tokenBucket cfg st now).2 =
          some ⟨tbCur cfg st now - 1, now,
                now + (Int.ceil ((tbBurst cfg : ℚ) / tbRate cfg)).toNat * 2 * 1000⟩)) ∧
    (∀ (n t : Nat),
      tbDecisions cfg none (List.replicate n t) =
        List.replicate (min n (tbBurst cfg)) true ++
        List.replicate (n - min n (tbBurst cfg)) false) ∧
    (∀ (n t : Nat), tbAdmitCount cfg none (List.replicate n t) = min n (tbBurst cfg)) ∧
    (∀ (k m t e d : Nat), k ≤ tbBurst cfg → (d : ℚ) / 1000 * tbRate cfg = (k : ℚ) →
      tbAdmitCount cfg (some ⟨0, t, e⟩) (List.replicate m (t + d)) = min m k) := by
  refine ⟨?_, tbDecisions_fromEmpty cfg, ?_, ?_⟩
  · intro st now
    by_cases h : tbCur cfg st now < 1
    · rw [tokenBucket_deny _ _ _ h]
      exact ⟨by simp [h], by simp⟩
    · rw [tokenBucket_grant _ _ _ h]
      exact ⟨by simp [h], fun _ => rfl⟩
  · intro n t
    unfold tbAdmitCount
    rw [tbDecisions_fromEmpty cfg n t, count_true_replicate_append]
  · intro k m t e d hk hd
    unfold tbAdmitCount
    rw [tbDecisions_refill cfg k hk m t e d hd, count_true_replicate_append]

/-- C2 witness: the refill conjunct applied to a concrete empty bucket idle for
2 seconds at `refillRate` 1 and `burst` 2. -/
theorem tokenBucket_burst_amended_witness :
    tbAdmitCount tbCfgEx (some ⟨0, 0, 0⟩) (List.replicate 6 (0 + 2000)) = min 6 2 :=
  (tokenBucket_burst_amended tbCfgEx).2.2.2 2 6 0 0 2000 (by decide)
    (by norm_num [tbRate, jsOrRat, tbCfgEx])

/-- Every instant at which a sliding-log run admitted belongs to the run's
instants. -/
theorem slAdmits_mem (cfg : IRateLimitConfig) :
    ∀ (ts : List Nat) (st : SLState) (x : Nat), x ∈ slAdmits cfg st ts → x ∈ ts := by
  intro ts
  induction ts with
  | nil => intro st x h; simp [slAdmits] at h
  | cons t ts ih =>
    intro st x h
    simp only [slAdmits] at h
    rcases List.mem_append.mp h with h1 | h1
    · split at h1
      · simp at h1
        subst h1
        exact List.mem_cons_self _ _
      · simp at h1
    · exact List.mem_cons_of_mem _ (ih _ _ h1)

/-- Pruning at a later instant subsumes pruning at an earlier one. -/
theorem sl_filter_step (cfg : IRateLimitConfig) (P : Finset Nat) {n t : Nat} (h : n ≤ t) :
    (P.filter (fun s => n < s + cfg.window * 1000)).filter
        (fun s => t < s + cfg.window * 1000) =
      P.filter (fun s => t < s + cfg.window * 1000) := by
  rw [Finset.filter_filter]
  apply Finset.filter_congr
  intro s _
  constructor
  · exact fun hab => hab.2
  · exact fun hb => ⟨by omega, hb⟩

/-- The windowed cap of the sliding log: over any chronological run from a state
whose log holds only instants `≤ now0` and, after pruning at `now0`, at most
`requests` entries, the pruned initial entries together with the distinct admit
instants that fall within any window-length interval `[a, a + window·1000)`
number at most `requests`. -/
theorem slidingLog_cap_aux (cfg : IRateLimitConfig) (hW : 1 ≤ cfg.window) :
    ∀ (ts : List Nat) (now0 : Nat) (P : Finset Nat) (e : Option Nat) (a : Nat),
      (now0 :: ts).Sorted (· ≤ ·) →
      (∀ p ∈ P, p ≤ now0) →
      (P.filter (fun s => now0 < s + cfg.window * 1000)).card ≤ cfg.requests →
      ((P.filter (fun s => now0 < s + cfg.window * 1000) ∪
          (slAdmits cfg
            ⟨P.filter (fun s => now0 < s + cfg.window * 1000), e⟩ ts).toFinset).filter
        (fun x => a ≤ x ∧ x < a + cfg.window * 1000)).card ≤ cfg.requests := by
  intro ts
  induction ts with
  | nil =>
    intro now0 P e a _ _ hcard
    simp only [slAdmits, List.toFinset_nil, Finset.union_empty]
    exact le_trans (Finset.card_le_card (Finset.filter_subset _ _)) hcard
  | cons t ts ih =>
    intro now0 P e a hsort hle hcard
    rw [List.sorted_cons] at hsort
    obtain ⟨hnow0, hsort'⟩ := hsort
    have hn0t : now0 ≤ t := hnow0 t (List.mem_cons_self _ _)
    have hts_ge : ∀ x ∈ ts, t ≤ x := (List.sorted_cons.mp hsort').1
    have hprune : (P.filter (fun s => now0 < s + cfg.window * 1000)).filter
        (fun s => t < s + cfg.window * 1000) =
        P.filter (fun s => t < s + cfg.window * 1000) := sl_filter_step cfg P hn0t
    have hsubPf : P.filter (fun s => t < s + cfg.window * 1000) ⊆
        P.filter (fun s => now0 < s + cfg.window * 1000) := by
      rw [← hprune]
      exact Finset.filter_subset _ _
    have hcard_t : (P.filter (fun s => t < s + cfg.window * 1000)).card ≤ cfg.requests :=
      le_trans (Finset.card_le_card hsubPf) hcard
    have hle_t : ∀ p ∈ P, p ≤ t := fun p hp => le_trans (hle p hp) hn0t
    simp only [slAdmits]
    by_cases hd : cfg.requests ≤ (P.filter (fun s => t < s + cfg.window * 1000)).card
    · -- deny step: the log is pruned, nothing else changes
      have hstep : slidingLog cfg
          ⟨P.filter (fun s => now0 < s + cfg.window * 1000), e⟩ t =
          (false, ⟨P.filter (fun s => t < s + cfg.window * 1000), e⟩) := by
        unfold slidingLog
        dsimp only
        rw [hprune, if_pos hd]
      rw [hstep]
      simp only [Bool.false_eq_true, if_false, List.nil_append]
      have ihc := ih t P e a (List.sorted_cons.mpr ⟨hts_ge, (List.sorted_cons.mp hsort').2⟩)
        hle_t hcard_t
      by_cases hsub : ∀ s ∈ P.filter (fun s => now0 < s + cfg.window * 1000),
          (a ≤ s ∧ s < a + cfg.window * 1000) →
          s ∈ P.filter (fun s => t < s + cfg.window * 1000)
      · refine le_trans (Finset.card_le_card ?_) ihc
        intro x hx
        obtain ⟨hx1, hx2⟩ := Finset.mem_filter.mp hx
        refine Finset.mem_filter.mpr ⟨?_, hx2⟩
        rcases Finset.mem_union.mp hx1 with h | h
        · exact Finset.mem_union_left _ (hsub x h hx2)
        · exact Finset.mem_union_right _ h
      · push_neg at hsub
        obtain ⟨s, hsP, hswin, hsnot⟩ := hsub
        have hsW : s + cfg.window * 1000 ≤ t := by
          by_contra hc
          push_neg at hc
          exact hsnot (Finset.mem_filter.mpr ⟨(Finset.mem_filter.mp hsP).1, hc⟩)
        have hta : a + cfg.window * 1000 ≤ t := by
          obtain ⟨has, _⟩ := hswin
          omega
        have heq : (P.filter (fun s => now0 < s + cfg.window * 1000) ∪
            (slAdmits cfg ⟨P.filter (fun s => t < s + cfg.window * 1000), e⟩
              ts).toFinset).filter (fun x => a ≤ x ∧ x < a + cfg.window * 1000) =
            (P.filter (fun s => now0 < s + cfg.window * 1000)).filter
              (fun x => a ≤ x ∧ x < a + cfg.window * 1000) := by
          ext x
          simp only [Finset.mem_filter, Finset.mem_union, List.mem_toFinset]
          constructor
          · rintro ⟨h | h, hw⟩
            · exact ⟨h, hw⟩
            · have hxt := hts_ge x (slAdmits_mem cfg ts _ x h)
              omega
          · rintro ⟨h, hw⟩
            exact ⟨Or.inl h, hw⟩
        rw [heq]
        exact le_trans (Finset.card_le_card (Finset.filter_subset _ _)) hcard
    · -- admit step: `t` is inserted into the pruned log
      have hstep : slidingLog cfg
          ⟨P.filter (fun s => now0 < s + cfg.window * 1000), e⟩ t =
          (true, ⟨insert t (P.filter (fun s => t < s + cfg.window * 1000)),
                  some (t + cfg.window * 1000)⟩) := by
        unfold slidingLog
        dsimp only
        rw [hprune, if_neg hd]
      rw [hstep]
      simp only [if_true, List.cons_append, List.nil_append, List.toFinset_cons]
      have hins : insert t (P.filter (fun s => t < s + cfg.window * 1000)) =
          (insert t P).filter (fun s => t < s + cfg.window * 1000) := by
        rw [Finset.filter_insert, if_pos (by omega)]
      have hle' : ∀ p ∈ insert t P, p ≤ t := by
        intro p hp
        rcases Finset.mem_insert.mp hp with h | h
        · exact le_of_eq h
        · exact hle_t p h
      have hcard' : ((insert t P).filter
          (fun s => t < s + cfg.window * 1000)).card ≤ cfg.requests := by
        rw [← hins]
        have := Finset.card_insert_le t (P.filter (fun s => t < s + cfg.window * 1000))
        omega
      have ihc := ih t (insert t P) (some (t + cfg.window * 1000)) a
        (List.sorted_cons.mpr ⟨hts_ge, (List.sorted_cons.mp hsort').2⟩) hle' hcard'
      rw [← hins] at ihc
      by_cases hsub : ∀ s ∈ P.filter (fun s => now0 < s + cfg.window * 1000),
          (a ≤ s ∧ s < a + cfg.window * 1000) →
          s ∈ P.filter (fun s => t < s + cfg.window * 1000)
      · refine le_trans (Finset.card_le_card ?_) ihc
        intro x hx
        obtain ⟨hx1, hx2⟩ := Finset.mem_filter.mp hx
        refine Finset.mem_filter.mpr ⟨?_, hx2⟩
        rcases Finset.mem_union.mp hx1 with h | h
        · exact Finset.mem_union_left _ (Finset.mem_insert_of_mem (hsub x h hx2))
        · rcases Finset.mem_insert.mp h with h | h
          · rw [h]
            exact Finset.mem_union_left _ (Finset.mem_insert_self _ _)
          · exact Finset.mem_union_right _ h
      · push_neg at hsub
        obtain ⟨s, hsP, hswin, hsnot⟩ := hsub
        have hsW : s + cfg.window * 1000 ≤ t := by
          by_contra hc
          push_neg at hc
          exact hsnot (Finset.mem_filter.mpr ⟨(Finset.mem_filter.mp hsP).1, hc⟩)
        have hta : a + cfg.window * 1000 ≤ t := by
          obtain ⟨has, _⟩ := hswin
          omega
        have heq : (P.filter (fun s => now0 < s + cfg.window * 1000) ∪
            insert t (slAdmits cfg
              ⟨insert t (P.filter (fun s => t < s + cfg.window * 1000)),
               some (t + cfg.window * 1000)⟩ ts).toFinset).filter
              (fun x => a ≤ x ∧ x < a + cfg.window * 1000) =
            (P.filter (fun s => now0 < s + cfg.window * 1000)).filter
              (fun x => a ≤ x ∧ x < a + cfg.window * 1000) := by
          ext x
          simp only [Finset.mem_filter, Finset.mem_union, Finset.mem_insert,
            List.mem_toFinset]
          constructor
          · rintro ⟨h | h, hw⟩
            · exact ⟨h, hw⟩
            · rcases h with h | h
              · omega
              · have hxt := hts_ge x (slAdmits_mem cfg ts _ x h)
                omega
          · rintro ⟨h, hw⟩
            exact ⟨Or.inl h, hw⟩
        rw [heq]
        exact le_trans (Finset.card_le_card (Finset.filter_subset _ _)) hcard

/-- C3, counterexample to the claim as stated: (a) the removal cutoff is
inclusive — with `window = 1` s and `requests = 1`, after an admit at `t = 0` the
call at `t = 1000` admits (the entry with score `0 = now − window·1000` is
removed), while the claim's strict-cutoff semantics (`slidingLogStrictCutoff`)
retains that entry and denies; (b) member = score = `now` collapses
same-millisecond admits, so with `requests = 2` four decisions at the same
instant all admit — more than `requests` admits inside one window. -/
theorem slidingLog_window_cex :
    slDecisions slCfgEx1 ⟨∅, none⟩ [0, 1000] = [true, true] ∧
    (slidingLogStrictCutoff slCfgEx1
        ((slidingLogStrictCutoff slCfgEx1 ⟨∅, none⟩ 0).2) 1000).1 = false ∧
    slDecisions slCfgEx2 ⟨∅, none⟩ [5, 5, 5, 5] = [true, true, true, true] := by
  decide

/-- C3 (amended): every `sliding_log` decision first removes the log entries
whose score is **at most** `now − window·1000` (the Redis range is inclusive),
then denies exactly when the remaining cardinality is at least `requests`; on
admit it adds one entry with score and member `now` and sets the key's TTL to
`window` seconds; since same-millisecond admits collapse into one member, within
any window-length interval the admits of a chronological run from an empty log
occur at at most `requests` **distinct** instants. -/
theorem slidingLog_window_amended (cfg : IRateLimitConfig) (hW : 1 ≤ cfg.window) :
    (∀ (st : SLState) (now : Nat),
      ((slidingLog cfg st now).1 = false ↔
        cfg.requests ≤ (st.log.filter (fun s => now < s + cfg.window * 1000)).card) ∧
      ((slidingLog cfg st now).1 = false →
        (slidingLog cfg st now).2 =
          ⟨st.log.filter (fun s => now < s + cfg.window * 1000), st.expiresAt⟩) ∧
      ((slidingLog cfg st now).1 = true →
        (slidingLog cfg st now).2 =
          ⟨insert now (st.log.filter (fun s => now < s + cfg.window * 1000)),
           some (now + cfg.window * 1000)⟩)) ∧
    (∀ (ts : List Nat) (a : Nat), ts.Sorted (· ≤ ·) →
      ((slAdmits cfg ⟨∅, none⟩ ts).toFinset.filter
        (fun x => a ≤ x ∧ x < a + cfg.window * 1000)).card ≤ cfg.requests) := by
  constructor
  · intro st now
    unfold slidingLog
    by_cases h : cfg.requests ≤
        (st.log.filter (fun s => now < s + cfg.window * 1000)).card
    · simp [h]
    · simp [h]
  · intro ts a hs
    have h0 : ((0 : Nat) :: ts).Sorted (· ≤ ·) :=
      List.sorted_cons.mpr ⟨fun b _ => Nat.zero_le b, hs⟩
    have := slidingLog_cap_aux cfg hW ts 0 ∅ none a h0 (by simp) (by simp)
    simpa using this

/-- C3 witness: the cap applied to a concrete sorted run of three instants. -/
theorem slidingLog_window_amended_witness :
    ((slAdmits slCfgEx2 ⟨∅, none⟩ [0, 400, 800]).toFinset.filter
      (fun x => 0 ≤ x ∧ x < 0 + slCfgEx2.window * 1000)).card ≤ slCfgEx2.requests :=
  (slidingLog_window_amended slCfgEx2 (by decide)).2 [0, 400, 800] 0 (by decide)

end RateX
